import Mathlib

/-!
Verification of the LAM_Communication_Agent message broker
(`src/interfaces/com_agent_interface.py`) against its specification.

The Python module is shallowly embedded below:

* JSON values (`Json`) model the Python values that appear in envelope
  payloads, metadata and journal records.  JSON floats do not occur in any
  broker-written record and are omitted from the model.
* Python dictionaries are modelled as association lists with unique keys;
  assignment (`dictSet`) updates in place or appends, matching insertion
  order semantics of `dict`.
* Python exceptions are modelled by `Except PyE`; `ValueError` (which the
  broker catches in its journal-replay loop) is distinguished from
  `TypeError`/`AttributeError` (which it does not catch).
* `uuid.uuid4()` and `time.time()` are nondeterministic inputs and are
  passed as explicit arguments (`fresh_id`, `now`).
* Logging calls have no effect on broker state and are dropped.
-/

namespace LamCA

/-- JSON-like values: the Python data manipulated by the broker. -/
inductive Json where
  | null
  | bool (b : Bool)
  | int (n : Int)
  | str (s : String)
  | arr (xs : List Json)
  | obj (fields : List (String × Json))

/-- A Python dict with string keys, as an association list (unique keys,
insertion order preserved). -/
abbrev JDict := List (String × Json)

/-- `d.get(k)` / `d[k]`: first binding for `k`. -/
def dictGet : JDict → String → Option Json
  | [], _ => none
  | (k', v) :: t, k => if k' = k then some v else dictGet t k

/-- `d[k] = v`: replace the binding in place if the key exists, else append
(Python dict assignment keeps insertion order). -/
def dictSet : JDict → String → Json → JDict
  | [], k, v => [(k, v)]
  | (k', v') :: t, k, v => if k' = k then (k, v) :: t else (k', v') :: dictSet t k v

/-- Python truthiness test (`if not x`): `None`, `False`, `0`, `""`, `[]`
and `{}` are falsy. -/
def isFalsy : Json → Bool
  | .null => true
  | .bool b => !b
  | .int n => n == 0
  | .str s => s == ""
  | .arr xs => xs.isEmpty
  | .obj fs => fs.isEmpty

/-- Python exceptions relevant to the broker.  `valueError` is caught by the
journal-replay loop; the other two are not caught anywhere. -/
inductive PyE where
  | valueError (msg : String)
  | typeError (msg : String)
  | attributeError (msg : String)

/-- Python `int(x)`: identity on ints, `True`/`False` count as `1`/`0`
(`bool` subclasses `int`), numeric strings are parsed (`ValueError` on
failure; the sign/whitespace trimming of CPython is approximated by
`String.toInt?`), other shapes raise `TypeError`. -/
def pyInt : Json → Except PyE Int
  | .int n => .ok n
  | .bool b => .ok (if b then 1 else 0)
  | .str s =>
      match s.toInt? with
      | some n => .ok n
      | none => .error (.valueError "invalid literal for int")
  | _ => .error (.typeError "int argument must be a string or a number")

/-- Python `isinstance(x, int)` combined with `int(x)`: succeeds exactly on
ints and bools (`bool` subclasses `int`). -/
def pyIntStrict : Json → Option Int
  | .int n => some n
  | .bool b => some (if b then 1 else 0)
  | _ => none

/-- Python `str(x)`.  Only the string case is ever exercised by the claims;
the rendering of the remaining shapes approximates CPython and is
immaterial. -/
def pyStr : Json → String
  | .str s => s
  | .int n => toString n
  | .bool true => "True"
  | .bool false => "False"
  | .null => "None"
  | .arr _ => "[...]"
  | .obj _ => "{...}"

/-- `MessageType = Literal["task", "event", "reply", "log"]`. -/
inductive MessageType where
  | task
  | event
  | reply
  | log
deriving DecidableEq

/-- The wire string of a message type. -/
def MessageType.toStr : MessageType → String
  | .task => "task"
  | .event => "event"
  | .reply => "reply"
  | .log => "log"

/-- The membership test `msg_type in {"task", "event", "reply", "log"}`
applied to a raw JSON value, combined with the use of the passing string as
the envelope's type. -/
def MessageType.ofJson : Json → Option MessageType
  | .str "task" => some .task
  | .str "event" => some .event
  | .str "reply" => some .reply
  | .str "log" => some .log
  | _ => none

/-- The `Envelope` dataclass. -/
structure Envelope where
  id : String
  «to» : String
  sender : String
  type : MessageType
  topic : String
  ts : Int
  payload : JDict
  meta : JDict
  attempts : Int

/-- `Envelope.new`: `uuid.uuid4()` and `int(time.time())` are passed in as
`fresh_id` and `now`; `meta or {}` defaults a missing meta to `{}`. -/
def Envelope.new («to» sender : String) (msg_type : MessageType) (topic : String)
    (payload : JDict) (meta : Option JDict) (fresh_id : String) (now : Int) : Envelope :=
  { id := fresh_id, «to» := «to», sender := sender, type := msg_type, topic := topic,
    ts := now, payload := payload, meta := meta.getD [], attempts := 0 }

/-- `Envelope.to_dict`. -/
def Envelope.to_dict (e : Envelope) : Json :=
  .obj [("id", .str e.id), ("to", .str e.to), ("from", .str e.sender),
        ("type", .str e.type.toStr), ("topic", .str e.topic), ("ts", .int e.ts),
        ("payload", .obj e.payload), ("meta", .obj e.meta),
        ("attempts", .int e.attempts)]

/-- The `required` key set of `Envelope.from_dict`. -/
def requiredKeys : List String :=
  ["id", "to", "from", "type", "topic", "ts", "payload", "meta"]

/-- `Envelope.from_dict`.  Checks exactly as in the source, in source order:
missing required keys, type tag, `payload` a dict, `meta` a dict, `ts` an
int; then constructs the envelope with `str`/`int` coercions, defaulting
`attempts` to `0`.  A non-mapping argument raises `AttributeError`
(`data.keys()`), which the replay loop does not catch. -/
def Envelope.from_dict (data : Json) : Except PyE Envelope :=
  match data with
  | .obj fields =>
    if (requiredKeys.filter (fun k => (dictGet fields k).isNone)) ≠ [] then
      .error (.valueError "Envelope missing keys")
    else
      match MessageType.ofJson ((dictGet fields "type").getD .null) with
      | none => .error (.valueError "Invalid message type")
      | some ty =>
        match (dictGet fields "payload").getD .null with
        | .obj payload =>
          match (dictGet fields "meta").getD .null with
          | .obj meta =>
            match pyIntStrict ((dictGet fields "ts").getD .null) with
            | none => .error (.valueError "ts must be an int")
            | some ts =>
              match pyInt ((dictGet fields "attempts").getD (.int 0)) with
              | .error e => .error e
              | .ok attempts =>
                .ok { id := pyStr ((dictGet fields "id").getD .null),
                      «to» := pyStr ((dictGet fields "to").getD .null),
                      sender := pyStr ((dictGet fields "from").getD .null),
                      type := ty,
                      topic := pyStr ((dictGet fields "topic").getD .null),
                      ts := ts, payload := payload, meta := meta,
                      attempts := attempts }
          | _ => .error (.valueError "meta must be a dict")
        | _ => .error (.valueError "payload must be a dict")
  | _ => .error (.attributeError "object has no attribute keys")

/-- `Envelope.next_backoff_seconds`: `min(2 ** max(self.attempts, 1), 30)`. -/
def Envelope.next_backoff_seconds (e : Envelope) : Int :=
  min ((2 : Int) ^ (max e.attempts 1).toNat) 30

/-- Round-trip: parsing a serialized envelope reconstructs it exactly. -/
theorem from_dict_to_dict (e : Envelope) :
    Envelope.from_dict e.to_dict = .ok e := by
  cases e with
  | mk i t s ty tp ts p m a => cases ty <;> rfl

/-!
## Broker state and operations

The `ComAgent` class.  The two journal files (`queue.jsonl`, `dlq.jsonl`)
are modelled as the lists of records appended to them (`_append_jsonl`
writes one JSON object per line).  The agent registry stores opaque handles
the broker never inspects, so only the registered names are modelled.
-/

/-- Mutable state of a `ComAgent` instance: registry (names only), the
`_queue` deque, the `_inflight` dict, `_max_retries`, and the contents
appended to the two journal files. -/
structure ComAgent where
  agent_registry : List String
  queue : List Envelope
  inflight : List (String × Envelope)
  max_retries : Int
  journal : List JDict
  dlq_journal : List JDict

/-- `dict.pop(key, None)` on the in-flight map: the value for the key plus
the map without it (keys are unique in reachable states). -/
def popKey : List (String × Envelope) → String → Option (Envelope × List (String × Envelope))
  | [], _ => none
  | (k, v) :: t, i =>
      if k = i then some (v, t)
      else (popKey t i).map (fun p => (p.1, (k, v) :: p.2))

/-- `self._inflight[envelope.id] = envelope`: dict assignment. -/
def inflightSet : List (String × Envelope) → String → Envelope → List (String × Envelope)
  | [], k, v => [(k, v)]
  | (k', v') :: t, k, v =>
      if k' = k then (k, v) :: t else (k', v') :: inflightSet t k v

/-- The record written by `send_envelope`:
`{"event": "send", "envelope": envelope.to_dict()}`. -/
def sendRec (e : Envelope) : JDict :=
  [("event", .str "send"), ("envelope", e.to_dict)]

/-- The record written by `receive_data`. -/
def receiveRec (e : Envelope) : JDict :=
  [("event", .str "receive"), ("envelope", e.to_dict)]

/-- The record written by `ack` on success. -/
def ackRec (e : Envelope) : JDict :=
  [("event", .str "ack"), ("envelope", e.to_dict)]

/-- The record written by `ack` when rescheduling a failed task. -/
def retryRec (e : Envelope) (error : String) : JDict :=
  [("event", .str "retry"), ("envelope", e.to_dict), ("error", .str error)]

/-- The record written by `ack` (to both journals) on retry exhaustion. -/
def dlqRec (e : Envelope) (error : String) : JDict :=
  [("event", .str "dlq"), ("envelope", e.to_dict), ("error", .str error)]

/-- `ComAgent.send_envelope`: returns `False` without touching any state if
the recipient is not registered; otherwise appends to the queue and then
journals a `send` record (see the effect traces below for the statement
order). -/
def send_envelope (s : ComAgent) (envelope : Envelope) : Bool × ComAgent :=
  if s.agent_registry.contains envelope.to then
    (true, { s with queue := s.queue ++ [envelope],
                    journal := s.journal ++ [sendRec envelope] })
  else
    (false, s)

/-- `ComAgent.send_data`: checks the registry, constructs a fresh envelope
(`fresh_id`/`now` standing for `uuid.uuid4()`/`time.time()`) and delegates
to `send_envelope`. -/
def send_data (s : ComAgent) (agent_name : String) (payload : JDict)
    (sender : String) (msg_type : MessageType) (topic : String)
    (meta : Option JDict) (fresh_id : String) (now : Int) : Bool × ComAgent :=
  if s.agent_registry.contains agent_name then
    send_envelope s (Envelope.new agent_name sender msg_type topic payload meta fresh_id now)
  else
    (false, s)

/-- `int(envelope.meta.get("available_at", 0))`. -/
def availTs (e : Envelope) : Except PyE Int :=
  pyInt ((dictGet e.meta "available_at").getD (.int 0))

/-- The loop body of `_pop_available`: runs for `fuel = len(queue)`
iterations; each iteration pops the head, returns it if its
`available_at` has passed, and otherwise appends it at the back. -/
def popAvailLoop : Nat → List Envelope → Int → Except PyE (Option Envelope × List Envelope)
  | 0, q, _ => .ok (none, q)
  | _ + 1, [], _ => .ok (none, [])
  | n + 1, e :: rest, now =>
      match availTs e with
      | .error err => .error err
      | .ok ts => if ts ≤ now then .ok (some e, rest) else popAvailLoop n (rest ++ [e]) now

/-- `ComAgent._pop_available` at time `now`. -/
def pop_available (q : List Envelope) (now : Int) : Except PyE (Option Envelope × List Envelope) :=
  popAvailLoop q.length q now

/-- One poll iteration of `ComAgent.receive_data` at time `now`.  The
`none` result corresponds to the loop's sleep/timeout path, which mutates
nothing (`_pop_available` leaves the queue as it found it after a full
rotation).  On a hit, a `task` envelope is inserted into the in-flight
map, a `receive` record is journaled, and `(envelope.to,
envelope.to_dict())` is returned. -/
def receive_data (s : ComAgent) (now : Int) :
    Except PyE (Option (String × Json) × ComAgent) :=
  match pop_available s.queue now with
  | .error err => .error err
  | .ok (none, q') => .ok (none, { s with queue := q' })
  | .ok (some envelope, q') =>
      let infl := if envelope.type = .task then inflightSet s.inflight envelope.id envelope
                  else s.inflight
      .ok (some (envelope.to, envelope.to_dict),
           { s with queue := q', inflight := infl,
                    journal := s.journal ++ [receiveRec envelope] })

/-- `ComAgent.ack` at time `now`.  Unknown ids are a no-op.  On success an
`ack` record is journaled.  On failure `attempts` is incremented; within
the retry budget the envelope is rescheduled `next_backoff_seconds()` into
the future and a `retry` record journaled, otherwise a `dlq` record goes
to both journals and the envelope is dropped. -/
def ack (s : ComAgent) (message_id : String) (success : Bool) (error : String)
    (now : Int) : ComAgent :=
  match popKey s.inflight message_id with
  | none => s
  | some (envelope, infl') =>
      if success then
        { s with inflight := infl', journal := s.journal ++ [ackRec envelope] }
      else
        let env1 : Envelope := { envelope with attempts := envelope.attempts + 1 }
        if env1.attempts ≤ s.max_retries then
          let backoff := env1.next_backoff_seconds
          let env2 : Envelope :=
            { env1 with meta := dictSet env1.meta "available_at" (.int (now + backoff)) }
          { s with inflight := infl',
                   queue := s.queue ++ [env2],
                   journal := s.journal ++ [retryRec env2 error] }
        else
          { s with inflight := infl',
                   journal := s.journal ++ [dlqRec env1 error],
                   dlq_journal := s.dlq_journal ++ [dlqRec env1 error] }

/-!
## Journal replay (`ComAgent._load_journal`)

A journal file is a list of lines; each line either fails `json.loads`
(`malformed`) or parses to a JSON object (`parsed`).  (A line holding
valid JSON that is not an object would crash `record.get` in the source;
such lines do not occur in broker-written journals and are outside the
model.)  Replay folds every line into a `timeline` dict keyed by envelope
id, each entry holding a strictly increasing `order` stamp, the last
recorded state, and the envelope of the last record; then rebuilds the
queue from the timeline values sorted by `order`.
-/

/-- One line of a journal file. -/
inductive JLine where
  | malformed
  | parsed (record : JDict)

/-- Replay state of an envelope: `"pending"`, `"inflight"`, `"done"`. -/
inductive RState where
  | pending
  | inflight
  | done
deriving DecidableEq

/-- A `timeline` entry: `(order, state, envelope)`. -/
structure Mark where
  order : Nat
  st : RState
  env : Envelope

/-- The `timeline` dict: envelope id to its last mark. -/
abbrev Timeline := List (String × Mark)

/-- `timeline[envelope.id] = (order, state, envelope)`. -/
def tlSet : Timeline → String → Mark → Timeline
  | [], k, m => [(k, m)]
  | (k', m') :: t, k, m => if k' = k then (k, m) :: t else (k', m') :: tlSet t k m

/-- `timeline.get(id)`. -/
def tlGet : Timeline → String → Option Mark
  | [], _ => none
  | (k', m') :: t, k => if k' = k then some m' else tlGet t k

/-- The mark produced by one line of the main journal, if any: skip
malformed lines, lines whose `event` or `envelope` entry is missing or
falsy, lines whose envelope fails validation with `ValueError`, and
events outside the five known ones.  An envelope entry that raises an
uncaught exception (non-`ValueError`) aborts replay. -/
def mainLineMark : JLine → Except PyE (Option (RState × Envelope))
  | .malformed => .ok none
  | .parsed record =>
      match dictGet record "event", dictGet record "envelope" with
      | some event, some envelope_data =>
          if isFalsy event || isFalsy envelope_data then .ok none
          else
            match Envelope.from_dict envelope_data with
            | .error (.valueError _) => .ok none
            | .error e => .error e
            | .ok envelope =>
                match event with
                | .str "send" => .ok (some (.pending, envelope))
                | .str "retry" => .ok (some (.pending, envelope))
                | .str "receive" => .ok (some (.inflight, envelope))
                | .str "ack" => .ok (some (.done, envelope))
                | .str "dlq" => .ok (some (.done, envelope))
                | _ => .ok none
      | _, _ => .ok none

/-- The mark produced by one line of the dead-letter file: any line with a
truthy, valid envelope marks that envelope `done` (no event check). -/
def dlqLineMark : JLine → Except PyE (Option (RState × Envelope))
  | .malformed => .ok none
  | .parsed record =>
      match dictGet record "envelope" with
      | some envelope_data =>
          if isFalsy envelope_data then .ok none
          else
            match Envelope.from_dict envelope_data with
            | .error (.valueError _) => .ok none
            | .error e => .error e
            | .ok envelope => .ok (some (.done, envelope))
      | none => .ok none

/-- `mark(state, envelope)`: bump `order` and overwrite
`timeline[envelope.id]`. -/
def applyMark (acc : Nat × Timeline) (p : RState × Envelope) : Nat × Timeline :=
  (acc.1 + 1, tlSet acc.2 p.2.id ⟨acc.1 + 1, p.1, p.2⟩)

/-- Process one journal line into the fold state. -/
def stepLine (f : JLine → Except PyE (Option (RState × Envelope)))
    (acc : Nat × Timeline) (l : JLine) : Except PyE (Nat × Timeline) :=
  match f l with
  | .error e => .error e
  | .ok none => .ok acc
  | .ok (some p) => .ok (applyMark acc p)

/-- The scanning loop over one journal file. -/
def scanLines (f : JLine → Except PyE (Option (RState × Envelope))) :
    Nat × Timeline → List JLine → Except PyE (Nat × Timeline)
  | acc, [] => .ok acc
  | acc, l :: ls =>
      match stepLine f acc l with
      | .error e => .error e
      | .ok acc' => scanLines f acc' ls

/-- Scan the main journal, then the dead-letter file, into the timeline. -/
def buildTimeline (main dlqLines : List JLine) : Except PyE (Nat × Timeline) :=
  match scanLines mainLineMark (0, ([] : Timeline)) main with
  | .error e => .error e
  | .ok acc => scanLines dlqLineMark acc dlqLines

/-- Insert a mark into a list sorted by ascending `order`. -/
def insertByOrder (m : Mark) : List Mark → List Mark
  | [] => [m]
  | m' :: t => if m.order ≤ m'.order then m :: m' :: t else m' :: insertByOrder m t

/-- `sorted(timeline.values(), key=lambda item: item[0])` (orders are
distinct, so any correct sort gives the same list). -/
def sortByOrder : List Mark → List Mark
  | [] => []
  | m :: t => insertByOrder m (sortByOrder t)

/-- Requeueing adjustment for an envelope rebuilt as `"inflight"` whose
`available_at` read back as `ts`: reset to `now` when it lies in the
past. -/
def adjAvail (now : Int) (e : Envelope) (ts : Int) : Envelope :=
  if ts < now then { e with meta := dictSet e.meta "available_at" (.int now) } else e

/-- The envelopes one sorted timeline entry contributes to the rebuilt
queue: a pending envelope verbatim, an inflight envelope requeued with its
`available_at` adjusted, a done envelope nothing. -/
def contrib (now : Int) (m : Mark) : Except PyE (List Envelope) :=
  match m.st with
  | .pending => .ok [m.env]
  | .inflight =>
      match availTs m.env with
      | .error e => .error e
      | .ok ts => .ok [adjAvail now m.env ts]
  | .done => .ok []

/-- Rebuild the queue from the sorted timeline entries. -/
def rebuild (now : Int) : List Mark → Except PyE (List Envelope)
  | [] => .ok []
  | m :: rest =>
      match contrib now m with
      | .error e => .error e
      | .ok xs =>
          match rebuild now rest with
          | .error e => .error e
          | .ok q => .ok (xs ++ q)

/-- `ComAgent._load_journal`: the queue a fresh broker starts with after
replaying the two journal files at time `now`.  (When neither file exists
replay is skipped, which coincides with replaying two empty files.) -/
def replayQueue (main dlqLines : List JLine) (now : Int) : Except PyE (List Envelope) :=
  match buildTimeline main dlqLines with
  | .error e => .error e
  | .ok (_, tl) => rebuild now (sortByOrder (tl.map (fun p => p.2)))

/-- The mark one line contributes, forgetting the distinction between a
skipped line and a replay-aborting line. -/
def markOf (f : JLine → Except PyE (Option (RState × Envelope))) (l : JLine) :
    Option (RState × Envelope) :=
  match f l with
  | .ok (some p) => some p
  | _ => none

/-- The marks a replay would process, in scan order: main journal first,
then the dead-letter file. -/
def marksOf (main dlqLines : List JLine) : List (RState × Envelope) :=
  main.filterMap (markOf mainLineMark) ++ dlqLines.filterMap (markOf dlqLineMark)

/-- The last recorded state and envelope for a given id: records are
scanned in written order and the last one wins. -/
def lastMarkFor (main dlqLines : List JLine) (id : String) :
    Option (RState × Envelope) :=
  ((marksOf main dlqLines).filter (fun p => p.2.id == id)).getLast?

/-!
## Effect traces

The durability-ordering claim is about the intermediate states inside one
broker operation, so each mutating operation is also given as the sequence
of primitive state updates it performs, in source statement order.  The
`applyTrace` consistency theorems below tie each trace to the corresponding
state function, so the traces cannot drift from the embedding.
-/

/-- One primitive state update: replace the queue (a deque append, or the
net queue rotation of `_pop_available`), replace the in-flight dict, or
append one record to a journal file. -/
inductive Effect where
  | mutQueue (q : List Envelope)
  | mutInflight (l : List (String × Envelope))
  | journal (r : JDict)
  | dlqJ (r : JDict)

/-- Whether an effect is a journal-file append (as opposed to an in-memory
queue/in-flight mutation). -/
def isJournalEff : Effect → Bool
  | .journal _ => true
  | .dlqJ _ => true
  | _ => false

/-- Apply one primitive update to the broker state. -/
def applyEffect (s : ComAgent) : Effect → ComAgent
  | .mutQueue q => { s with queue := q }
  | .mutInflight l => { s with inflight := l }
  | .journal r => { s with journal := s.journal ++ [r] }
  | .dlqJ r => { s with dlq_journal := s.dlq_journal ++ [r] }

/-- Run a list of primitive updates in order. -/
def applyTrace (s : ComAgent) (tr : List Effect) : ComAgent :=
  tr.foldl applyEffect s

/-- Statement order of `send_envelope` (source lines 251-258): registry
check, `self._queue.append(envelope)`, then `self._append_jsonl(...)`. -/
def sendEnvelopeTrace (s : ComAgent) (envelope : Envelope) : List Effect :=
  if s.agent_registry.contains envelope.to then
    [.mutQueue (s.queue ++ [envelope]), .journal (sendRec envelope)]
  else []

/-- Statement order of one `receive_data` poll (source lines 268-286):
`_pop_available` mutates the queue, then a `task` envelope is inserted
into `_inflight`, then the `receive` record is appended. -/
def receiveTrace (s : ComAgent) (now : Int) : List Effect :=
  match pop_available s.queue now with
  | .error _ => []
  | .ok (none, q') => [.mutQueue q']
  | .ok (some envelope, q') =>
      [.mutQueue q'] ++
        (if envelope.type = .task then
          [.mutInflight (inflightSet s.inflight envelope.id envelope)]
         else []) ++
        [.journal (receiveRec envelope)]

/-- Statement order of `ack` (source lines 298-344): `_inflight.pop`
first, then on the retry path the queue append precedes the `retry`
journal append, and on the other paths only journal appends follow. -/
def ackTrace (s : ComAgent) (message_id : String) (success : Bool)
    (error : String) (now : Int) : List Effect :=
  match popKey s.inflight message_id with
  | none => []
  | some (envelope, infl') =>
      if success then
        [.mutInflight infl', .journal (ackRec envelope)]
      else
        let env1 : Envelope := { envelope with attempts := envelope.attempts + 1 }
        if env1.attempts ≤ s.max_retries then
          let env2 : Envelope :=
            { env1 with
              meta := dictSet env1.meta "available_at"
                        (.int (now + env1.next_backoff_seconds)) }
          [.mutInflight infl', .mutQueue (s.queue ++ [env2]),
           .journal (retryRec env2 error)]
        else
          [.mutInflight infl', .journal (dlqRec env1 error),
           .dlqJ (dlqRec env1 error)]

/-- The state after one `receive_data` poll (the state is unchanged when
the poll raises). -/
def receiveState (s : ComAgent) (now : Int) : ComAgent :=
  match receive_data s now with
  | .ok (_, s') => s'
  | .error _ => s

/-- A trace whose in-memory mutations all precede its journal appends. -/
def memThenJournal (tr : List Effect) : Prop :=
  ∃ ms js, tr = ms ++ js ∧ (∀ x ∈ ms, isJournalEff x = false) ∧
    (∀ x ∈ js, isJournalEff x = true)

/-!
## Sample data for concrete runs
-/

/-- A concrete event envelope addressed to `"bob"`. -/
def sampleEnv : Envelope :=
  { id := "m1", «to» := "bob", sender := "ann", type := .event, topic := "general",
    ts := 0, payload := [], meta := [], attempts := 0 }

/-- A future-scheduled envelope (`available_at = 10`). -/
def envF : Envelope := { sampleEnv with id := "f", meta := [("available_at", .int 10)] }

/-- An immediately available envelope. -/
def envA : Envelope := { sampleEnv with id := "a" }

/-- Another immediately available envelope. -/
def envB : Envelope := { sampleEnv with id := "b" }

/-- A fresh broker with `"bob"` registered. -/
def st0 : ComAgent :=
  { agent_registry := ["bob"], queue := [], inflight := [], max_retries := 3,
    journal := [], dlq_journal := [] }

/-- The broker `st0` with queue `[envF, envA, envB]`. -/
def st2 : ComAgent := { st0 with queue := [envF, envA, envB] }

/-!
## Claim theorems: envelope and delivery-engine claims
-/

/-- C6: for every valid envelope `e`, parsing its serialized form
reconstructs it exactly — `Envelope.from_dict (e.to_dict()) == e` with the
same id, recipient, sender, type, topic, timestamp, payload, meta and
attempts. -/
theorem c6_envelope_roundtrip (e : Envelope) :
    Envelope.from_dict e.to_dict = .ok e :=
  from_dict_to_dict e

/-- C7: sending to an unregistered recipient returns `false` and mutates
no broker state (queue, in-flight set, registry and both journal files are
exactly as before); both `send_data` and `send_envelope` are total
functions, so no exception is raised. -/
theorem c7_send_unregistered_noop (s : ComAgent) (agent_name : String)
    (payload : JDict) (sender : String) (msg_type : MessageType) (topic : String)
    (meta : Option JDict) (fresh_id : String) (now : Int) (envelope : Envelope)
    (hreg : s.agent_registry.contains agent_name = false) :
    send_data s agent_name payload sender msg_type topic meta fresh_id now = (false, s) ∧
    (envelope.to = agent_name → send_envelope s envelope = (false, s)) := by
  have hmem : agent_name ∉ s.agent_registry := by simpa using hreg
  constructor
  · simp [send_data, hmem]
  · intro h
    simp [send_envelope, h, hmem]

/-- Witness for C7 at a concrete broker (`"carol"` is not registered). -/
theorem c7_witness :
    send_data st0 "carol" [] "system" .event "general" none "fresh" 0 = (false, st0) ∧
    ({ sampleEnv with «to» := "carol" }.to = "carol" →
      send_envelope st0 { sampleEnv with «to» := "carol" } = (false, st0)) :=
  c7_send_unregistered_noop st0 "carol" [] "system" .event "general" none "fresh" 0
    { sampleEnv with «to» := "carol" } rfl

/-- C8: acknowledging an id that is not in-flight (including a second
acknowledgment of the same id) is a no-op: `ack` is a total function (no
exception) and returns the state unchanged — queue, in-flight set and both
journal files included. -/
theorem c8_ack_unknown_noop (s : ComAgent) (message_id : String)
    (success : Bool) (error : String) (now : Int)
    (h : popKey s.inflight message_id = none) :
    ack s message_id success error now = s := by
  simp [ack, h]

/-- Witness for C8 on a broker with an empty in-flight set. -/
theorem c8_witness : ack st0 "nope" true "" 0 = st0 :=
  c8_ack_unknown_noop st0 "nope" true "" 0 rfl

/-- The envelope `ack` re-enqueues on a retryable failure: `attempts`
incremented, `available_at` set to `now` plus the post-increment
backoff. -/
def retried (e : Envelope) (now : Int) : Envelope :=
  { e with attempts := e.attempts + 1,
           meta := dictSet e.meta "available_at"
             (.int (now + Envelope.next_backoff_seconds
                      { e with attempts := e.attempts + 1 })) }

/-- C4: failing acknowledgment of an in-flight task envelope increments
`attempts` by exactly 1 and removes it from the in-flight set; if the
incremented count is within `max_retries` the envelope is re-enqueued with
`available_at = now + next_backoff_seconds()` (a strictly future time) and
a `retry` record annotated with the error is journaled; otherwise it is
not re-enqueued and a `dlq` record annotated with the error goes to both
the main journal and the dead-letter journal. -/
theorem c4_ack_failure (s : ComAgent) (message_id : String) (error : String)
    (now : Int) (envelope : Envelope) (infl' : List (String × Envelope))
    (_htask : envelope.type = .task)
    (hpop : popKey s.inflight message_id = some (envelope, infl')) :
    now < now + Envelope.next_backoff_seconds
        { envelope with attempts := envelope.attempts + 1 } ∧
    (envelope.attempts + 1 ≤ s.max_retries →
      ack s message_id false error now =
        { s with inflight := infl',
                 queue := s.queue ++ [retried envelope now],
                 journal := s.journal ++ [retryRec (retried envelope now) error] }) ∧
    (s.max_retries < envelope.attempts + 1 →
      ack s message_id false error now =
        { s with inflight := infl',
                 journal := s.journal ++
                   [dlqRec { envelope with attempts := envelope.attempts + 1 } error],
                 dlq_journal := s.dlq_journal ++
                   [dlqRec { envelope with attempts := envelope.attempts + 1 } error] }) := by
  refine ⟨?_, ?_, ?_⟩
  · have h2 : (0 : Int) < 2 ^ (max (envelope.attempts + 1) 1).toNat :=
      pow_pos (by norm_num) _
    have : (0 : Int) < Envelope.next_backoff_seconds
        { envelope with attempts := envelope.attempts + 1 } := by
      unfold Envelope.next_backoff_seconds
      exact lt_min h2 (by norm_num)
    omega
  · intro h
    simp [ack, hpop, retried, h]
  · intro h
    have h' : ¬(envelope.attempts + 1 ≤ s.max_retries) := not_le.mpr h
    simp [ack, hpop, h']

/-- Witness for C4 (retry branch) on a broker holding one in-flight task. -/
theorem c4_witness :
    (0 : Int) < 0 + Envelope.next_backoff_seconds
        { { sampleEnv with type := .task } with attempts :=
            { sampleEnv with type := .task }.attempts + 1 } ∧
    ack { st0 with inflight := [("m1", { sampleEnv with type := .task })] }
        "m1" false "boom" 0 =
      { { st0 with inflight := [("m1", { sampleEnv with type := .task })] } with
        inflight := [],
        queue := { st0 with
          inflight := [("m1", { sampleEnv with type := .task })] }.queue ++
            [retried { sampleEnv with type := .task } 0],
        journal := { st0 with
          inflight := [("m1", { sampleEnv with type := .task })] }.journal ++
            [retryRec (retried { sampleEnv with type := .task } 0) "boom"] } := by
  have h := c4_ack_failure
    { st0 with inflight := [("m1", { sampleEnv with type := .task })] }
    "m1" "boom" 0 { sampleEnv with type := .task } [] rfl rfl
  exact ⟨h.1, h.2.1 (by decide)⟩

/-- The scan of `_pop_available` over a queue whose first available
envelope is preceded by `skipped` future-scheduled ones: the available
envelope is returned and all skipped envelopes end up at the back of the
queue, behind `rest`. -/
theorem popAvailLoop_found (now : Int) :
    ∀ (skipped : List Envelope) (n : Nat) (e : Envelope) (rest : List Envelope),
    (∀ x ∈ skipped, ∃ ts, availTs x = .ok ts ∧ now < ts) →
    (∃ ts, availTs e = .ok ts ∧ ts ≤ now) →
    popAvailLoop (skipped.length + n + 1) (skipped ++ e :: rest) now =
      .ok (some e, rest ++ skipped) := by
  intro skipped
  induction skipped with
  | nil =>
      intro n e rest _ he
      obtain ⟨ts, h1, h2⟩ := he
      simp [popAvailLoop, h1, h2]
  | cons x s ih =>
      intro n e rest hskip he
      obtain ⟨tsx, hx1, hx2⟩ := hskip x (List.mem_cons_self x s)
      have hnle : ¬(tsx ≤ now) := not_le.mpr hx2
      show popAvailLoop ((x :: s).length + n + 1) (x :: (s ++ e :: rest)) now = _
      rw [show (x :: s).length + n + 1 = (s.length + n + 1) + 1 by
        simp only [List.length_cons]; omega]
      unfold popAvailLoop
      rw [hx1]
      simp only [hnle, if_false]
      have hl : (s ++ e :: rest) ++ [x] = s ++ e :: (rest ++ [x]) := by simp
      rw [hl]
      have hrec := ih n e (rest ++ [x])
        (fun y hy => hskip y (List.mem_cons_of_mem x hy)) he
      rw [hrec]
      simp

/-- C2 (amended): `_pop_available` returns the first envelope whose
`available_at` has passed, but the skipped future-scheduled envelopes are
not returned to their original positions: each is popped from the front
and appended at the back, so after the call the queue is
`rest ++ skipped` — order is preserved among the skipped envelopes and
among the untouched ones, but the skipped prefix moves behind the rest of
the queue. -/
theorem c2_skipped_rotate_to_back (skipped : List Envelope) (e : Envelope)
    (rest : List Envelope) (now : Int)
    (hskip : ∀ x ∈ skipped, ∃ ts, availTs x = .ok ts ∧ now < ts)
    (he : ∃ ts, availTs e = .ok ts ∧ ts ≤ now) :
    pop_available (skipped ++ e :: rest) now = .ok (some e, rest ++ skipped) := by
  unfold pop_available
  rw [show (skipped ++ e :: rest).length = skipped.length + rest.length + 1 by
    simp [List.length_append]; omega]
  exact popAvailLoop_found now skipped rest.length e rest hskip he

/-- Witness for the amended C2: queue `[envF, envA, envB]` at time 5
yields `envA` and leaves the queue `[envB, envF]`. -/
theorem c2_witness :
    pop_available ([envF] ++ envA :: [envB]) 5 = .ok (some envA, [envB] ++ [envF]) :=
  c2_skipped_rotate_to_back [envF] envA [envB] 5
    (by intro x hx
        simp only [List.mem_singleton] at hx
        exact ⟨10, by rw [hx]; rfl, by norm_num⟩)
    ⟨0, rfl, by norm_num⟩

/-- C2 (counterexample): on queue `[envF, envA, envB]` (`envF` scheduled
for the future), `receive_data` at time 5 returns `envA` but leaves the
queue `[envB, envF]`, whereas the claim requires the skipped `envF` to
stay in front of `envB` (queue `[envF, envB]`); the relative order of the
remaining pending envelopes is changed. -/
theorem c2_counterexample :
    receive_data st2 5 =
      .ok (some ("bob", envA.to_dict),
           { st2 with queue := [envB, envF],
                      journal := st2.journal ++ [receiveRec envA] }) ∧
    [envB, envF] ≠ [envF, envB] := by
  constructor
  · rfl
  · intro h
    exact absurd (congrArg (List.map Envelope.id) h) (by decide)

/-- C1 (counterexample): in `send_envelope` the queue append (source line
255) precedes the `send` journal append (line 256), so after the first
primitive step the queue is already mutated while the journal does not yet
contain the record — the claimed journal-before-mutation ordering fails.
The last conjunct checks the trace against the state function. -/
theorem c1_counterexample :
    (applyTrace st0 ((sendEnvelopeTrace st0 envA).take 1)).queue ≠ st0.queue ∧
    (applyTrace st0 ((sendEnvelopeTrace st0 envA).take 1)).journal = st0.journal ∧
    sendRec envA ∉ (applyTrace st0 ((sendEnvelopeTrace st0 envA).take 1)).journal ∧
    applyTrace st0 (sendEnvelopeTrace st0 envA) = (send_envelope st0 envA).2 := by
  refine ⟨?_, rfl, ?_, rfl⟩
  · exact List.cons_ne_nil envA []
  · exact List.not_mem_nil (sendRec envA)

/-- C1 (amended): in every state-mutating broker operation the in-memory
mutations (queue append, in-flight insertion or removal) are committed
first and the journal appends recording them follow, all before the
operation returns — the reverse of the claimed journal-first order.  The
`applyTrace` conjuncts tie each effect trace to the corresponding state
function, so the traces are faithful to the operations. -/
theorem c1_mutations_precede_journal (s : ComAgent) (envelope : Envelope)
    (message_id : String) (success : Bool) (error : String) (now t : Int) :
    memThenJournal (sendEnvelopeTrace s envelope) ∧
    memThenJournal (receiveTrace s now) ∧
    memThenJournal (ackTrace s message_id success error t) ∧
    applyTrace s (sendEnvelopeTrace s envelope) = (send_envelope s envelope).2 ∧
    applyTrace s (receiveTrace s now) = receiveState s now ∧
    applyTrace s (ackTrace s message_id success error t) =
      ack s message_id success error t := by
  have hempty : memThenJournal [] := ⟨[], [], rfl, by simp, by simp⟩
  refine ⟨?_, ?_, ?_, ?_, ?_, ?_⟩
  · by_cases hr : envelope.to ∈ s.agent_registry
    · exact ⟨[.mutQueue (s.queue ++ [envelope])], [.journal (sendRec envelope)],
        by simp [sendEnvelopeTrace, hr],
        by simp [List.forall_mem_cons, isJournalEff],
        by simp [List.forall_mem_cons, isJournalEff]⟩
    · rw [show sendEnvelopeTrace s envelope = [] by simp [sendEnvelopeTrace, hr]]
      exact hempty
  · cases hp : pop_available s.queue now with
    | error e =>
        rw [show receiveTrace s now = [] by rw [receiveTrace, hp]]
        exact hempty
    | ok p =>
        obtain ⟨o, q'⟩ := p
        cases o with
        | none =>
            refine ⟨[.mutQueue q'], [], ?_, ?_, ?_⟩
            · rw [receiveTrace, hp]
              simp
            · simp [List.forall_mem_cons, isJournalEff]
            · simp
        | some env =>
            by_cases ht : env.type = .task
            · refine ⟨[.mutQueue q', .mutInflight (inflightSet s.inflight env.id env)],
                [.journal (receiveRec env)], ?_, ?_, ?_⟩
              · rw [receiveTrace, hp]
                simp [ht]
              · simp [List.forall_mem_cons, isJournalEff]
              · simp [List.forall_mem_cons, isJournalEff]
            · refine ⟨[.mutQueue q'], [.journal (receiveRec env)], ?_, ?_, ?_⟩
              · rw [receiveTrace, hp]
                simp [ht]
              · simp [List.forall_mem_cons, isJournalEff]
              · simp [List.forall_mem_cons, isJournalEff]
  · cases hk : popKey s.inflight message_id with
    | none =>
        rw [show ackTrace s message_id success error t = [] by rw [ackTrace, hk]]
        exact hempty
    | some p =>
        obtain ⟨env, infl'⟩ := p
        cases success with
        | true =>
            refine ⟨[.mutInflight infl'], [.journal (ackRec env)], ?_, ?_, ?_⟩
            · rw [ackTrace, hk]
              simp
            · simp [List.forall_mem_cons, isJournalEff]
            · simp [List.forall_mem_cons, isJournalEff]
        | false =>
            by_cases hb : env.attempts + 1 ≤ s.max_retries
            · refine ⟨[.mutInflight infl',
                .mutQueue (s.queue ++ [retried env t])],
                [.journal (retryRec (retried env t) error)], ?_, ?_, ?_⟩
              · rw [ackTrace, hk]
                simp only [Bool.false_eq_true, if_false]
                rw [if_pos hb]
                simp [retried]
              · simp [List.forall_mem_cons, isJournalEff]
              · simp [List.forall_mem_cons, isJournalEff]
            · refine ⟨[.mutInflight infl'],
                [.journal (dlqRec { env with attempts := env.attempts + 1 } error),
                 .dlqJ (dlqRec { env with attempts := env.attempts + 1 } error)],
                ?_, ?_, ?_⟩
              · rw [ackTrace, hk]
                simp only [Bool.false_eq_true, if_false]
                rw [if_neg hb]
                simp
              · simp [List.forall_mem_cons, isJournalEff]
              · simp [List.forall_mem_cons, isJournalEff]
  · by_cases hr : envelope.to ∈ s.agent_registry <;>
      simp [sendEnvelopeTrace, send_envelope, hr, applyTrace, applyEffect]
  · cases hp : pop_available s.queue now with
    | error e =>
        simp [receiveTrace, receiveState, receive_data, hp, applyTrace]
    | ok p =>
        obtain ⟨o, q'⟩ := p
        cases o with
        | none =>
            simp [receiveTrace, receiveState, receive_data, hp, applyTrace, applyEffect]
        | some env =>
            by_cases ht : env.type = .task <;>
              simp [receiveTrace, receiveState, receive_data, hp, ht,
                applyTrace, applyEffect]
  · cases hk : popKey s.inflight message_id with
    | none => simp [ackTrace, ack, hk, applyTrace]
    | some p =>
        obtain ⟨env, infl'⟩ := p
        cases success with
        | true => simp [ackTrace, ack, hk, applyTrace, applyEffect]
        | false =>
            by_cases hb : env.attempts + 1 ≤ s.max_retries <;>
              simp [ackTrace, ack, hk, hb, applyTrace, applyEffect]

/-!
## Replay correctness lemmas

The chain below relates `replayQueue` to `lastMarkFor`: the timeline fold
implements last-write-wins per envelope id, the timeline keys are unique
and agree with the stored envelope ids, sorting permutes the timeline
values, and rebuilding commutes with filtering by id.
-/

/-- Looking up the key just set. -/
theorem tlGet_tlSet_eq (tl : Timeline) (k : String) (m : Mark) :
    tlGet (tlSet tl k m) k = some m := by
  induction tl with
  | nil => simp [tlSet, tlGet]
  | cons p t ih =>
      obtain ⟨k', m'⟩ := p
      by_cases h : k' = k <;> simp [tlSet, tlGet, h, ih]

/-- Looking up another key after a set. -/
theorem tlGet_tlSet_ne (tl : Timeline) (k k' : String) (m : Mark)
    (h : k' ≠ k) : tlGet (tlSet tl k m) k' = tlGet tl k' := by
  have h' : k ≠ k' := fun hh => h hh.symm
  induction tl with
  | nil => simp [tlSet, tlGet, h']
  | cons p t ih =>
      obtain ⟨k0, m0⟩ := p
      by_cases h0 : k0 = k
      · subst h0
        simp [tlSet, tlGet, h']
      · by_cases h1 : k0 = k' <;> simp [tlSet, tlGet, h0, h1, ih, h]

/-- Projection of a mark to what the last-write-wins map records. -/
def mproj (m : Mark) : RState × Envelope := (m.st, m.env)

/-- The timeline fold is last-write-wins: after folding a list of marks,
the lookup of an id yields the last mark for that id, falling back to the
accumulator. -/
theorem tlGet_foldl (ms : List (RState × Envelope)) :
    ∀ (acc : Nat × Timeline) (id : String),
    (tlGet (List.foldl applyMark acc ms).2 id).map mproj =
      Option.or ((ms.filter (fun p => p.2.id == id)).getLast?)
        ((tlGet acc.2 id).map mproj) := by
  induction ms with
  | nil => intro acc id; simp
  | cons p ms ih =>
      intro acc id
      rw [List.foldl_cons, ih]
      by_cases hid : p.2.id = id
      · have hb : (p.2.id == id) = true := beq_iff_eq.mpr hid
        have hget : tlGet (applyMark acc p).2 id = some ⟨acc.1 + 1, p.1, p.2⟩ := by
          simp only [applyMark]
          rw [← hid]
          exact tlGet_tlSet_eq acc.2 p.2.id ⟨acc.1 + 1, p.1, p.2⟩
        rw [hget]
        simp only [List.filter_cons, hb, if_true]
        cases hfl : (List.filter (fun p => p.2.id == id) ms).getLast? with
        | none =>
            have hnil : List.filter (fun p => p.2.id == id) ms = [] := by
              cases hc : List.filter (fun p => p.2.id == id) ms with
              | nil => rfl
              | cons a l =>
                  exfalso
                  obtain ⟨l', b, h⟩ :=
                    (List.eq_nil_or_concat (a :: l)).resolve_left (by simp)
                  rw [hc, h, List.concat_eq_append, List.getLast?_concat] at hfl
                  exact Option.noConfusion hfl
            rw [hnil]
            simp [mproj, Option.or]
        | some q =>
            have hne : List.filter (fun p => p.2.id == id) ms ≠ [] := by
              intro hnil
              rw [hnil] at hfl
              exact Option.noConfusion hfl
            obtain ⟨l', a, h⟩ := (List.eq_nil_or_concat _).resolve_left hne
            rw [List.concat_eq_append] at h
            have ha : a = q := by
              rw [h, List.getLast?_concat] at hfl
              exact Option.some_inj.mp hfl
            rw [ha] at h
            rw [h, show p :: (l' ++ [q]) = (p :: l') ++ [q] by simp,
              List.getLast?_concat]
            rfl
      · have hb : (p.2.id == id) = false := by
          simp [hid]
        have hget : tlGet (applyMark acc p).2 id = tlGet acc.2 id := by
          simp only [applyMark]
          exact tlGet_tlSet_ne acc.2 p.2.id id ⟨acc.1 + 1, p.1, p.2⟩
            (fun h => hid h.symm)
        rw [hget]
        simp [List.filter_cons, hb]

/-- Scanning a journal file that does not abort equals folding the marks
of its lines. -/
theorem scanLines_ok (f : JLine → Except PyE (Option (RState × Envelope))) :
    ∀ (ls : List JLine) (acc r : Nat × Timeline),
    scanLines f acc ls = .ok r →
    r = List.foldl applyMark acc (ls.filterMap (markOf f)) := by
  intro ls
  induction ls with
  | nil =>
      intro acc r h
      simp only [scanLines] at h
      cases h
      simp
  | cons l ls ih =>
      intro acc r h
      simp only [scanLines, stepLine] at h
      cases hf : f l with
      | error e => rw [hf] at h; simp at h
      | ok o =>
          rw [hf] at h
          cases o with
          | none =>
              simp only [] at h
              have := ih acc r h
              simp [List.filterMap_cons, markOf, hf, this]
          | some p =>
              simp only [] at h
              have := ih (applyMark acc p) r h
              simp [List.filterMap_cons, markOf, hf, this]

/-- Timeline well-formedness: every entry's key is its envelope's id, and
keys are unique. -/
def TLinv (tl : Timeline) : Prop :=
  (∀ p ∈ tl, p.2.env.id = p.1) ∧ tl.Pairwise (fun a b => a.1 ≠ b.1)

/-- Membership in a timeline after a set. -/
theorem mem_tlSet (tl : Timeline) (k : String) (m : Mark) :
    ∀ p ∈ tlSet tl k m, p = (k, m) ∨ p ∈ tl := by
  induction tl with
  | nil =>
      intro p hp
      simp [tlSet] at hp
      exact Or.inl hp
  | cons q t ih =>
      obtain ⟨k0, m0⟩ := q
      intro p hp
      by_cases h0 : k0 = k
      · rw [tlSet, if_pos h0] at hp
        rcases List.mem_cons.mp hp with h | h
        · exact Or.inl h
        · exact Or.inr (List.mem_cons_of_mem _ h)
      · rw [tlSet, if_neg h0] at hp
        rcases List.mem_cons.mp hp with h | h
        · exact Or.inr (h ▸ List.mem_cons_self _ _)
        · rcases ih p h with h' | h'
          · exact Or.inl h'
          · exact Or.inr (List.mem_cons_of_mem _ h')

/-- `tlSet` preserves the well-formedness invariant when the stored mark's
envelope id is the key. -/
theorem TLinv_tlSet (tl : Timeline) (k : String) (m : Mark)
    (hinv : TLinv tl) (hk : m.env.id = k) : TLinv (tlSet tl k m) := by
  obtain ⟨hids, huniq⟩ := hinv
  induction tl with
  | nil =>
      exact ⟨by simpa [tlSet] using hk, by simp [tlSet]⟩
  | cons q t ih =>
      obtain ⟨k0, m0⟩ := q
      have hids' : ∀ p ∈ t, p.2.env.id = p.1 :=
        fun p hp => hids p (List.mem_cons_of_mem _ hp)
      have huniq' : t.Pairwise (fun a b => a.1 ≠ b.1) :=
        (List.pairwise_cons.mp huniq).2
      have hk0 : ∀ p ∈ t, k0 ≠ p.1 :=
        (List.pairwise_cons.mp huniq).1
      by_cases h0 : k0 = k
      · rw [tlSet, if_pos h0]
        refine ⟨?_, ?_⟩
        · intro p hp
          rcases List.mem_cons.mp hp with h | h
          · rw [h]; exact hk
          · exact hids p (List.mem_cons_of_mem _ h)
        · rw [List.pairwise_cons]
          exact ⟨fun p hp => h0 ▸ hk0 p hp, huniq'⟩
      · rw [tlSet, if_neg h0]
        obtain ⟨ih1, ih2⟩ := ih hids' huniq'
        refine ⟨?_, ?_⟩
        · intro p hp
          rcases List.mem_cons.mp hp with h | h
          · rw [h]; exact hids (k0, m0) (List.mem_cons_self _ _)
          · exact ih1 p h
        · rw [List.pairwise_cons]
          refine ⟨?_, ih2⟩
          intro p hp
          rcases mem_tlSet t k m p hp with h | h
          · rw [h]; exact h0
          · exact hk0 p h
      -- (the `cons` case never uses `ih` through `hids`/`huniq` directly)

/-- The timeline fold preserves well-formedness. -/
theorem TLinv_foldl (ms : List (RState × Envelope)) :
    ∀ acc : Nat × Timeline, TLinv acc.2 →
      TLinv (List.foldl applyMark acc ms).2 := by
  induction ms with
  | nil => intro acc h; exact h
  | cons p ms ih =>
      intro acc h
      rw [List.foldl_cons]
      exact ih (applyMark acc p) (TLinv_tlSet acc.2 p.2.id ⟨acc.1 + 1, p.1, p.2⟩ h rfl)

/-- In a well-formed timeline, filtering the values by id recovers exactly
the looked-up entry. -/
theorem values_filter_tlGet (tl : Timeline) (hinv : TLinv tl) (id : String) :
    (tl.map (fun p => p.2)).filter (fun m => m.env.id == id) =
      (match tlGet tl id with
       | some m => [m]
       | none => []) := by
  obtain ⟨hids, huniq⟩ := hinv
  induction tl with
  | nil => simp [tlGet]
  | cons q t ih =>
      obtain ⟨k0, m0⟩ := q
      have hid0 : m0.env.id = k0 := hids (k0, m0) (List.mem_cons_self _ _)
      have hids' : ∀ p ∈ t, p.2.env.id = p.1 :=
        fun p hp => hids p (List.mem_cons_of_mem _ hp)
      have huniq' : t.Pairwise (fun a b => a.1 ≠ b.1) :=
        (List.pairwise_cons.mp huniq).2
      have hk0 : ∀ p ∈ t, k0 ≠ p.1 :=
        (List.pairwise_cons.mp huniq).1
      by_cases h0 : k0 = id
      · have hb : (m0.env.id == id) = true := beq_iff_eq.mpr (hid0.trans h0)
        have hrest : (t.map (fun p => p.2)).filter (fun m => m.env.id == id) = [] := by
          rw [List.filter_eq_nil_iff]
          intro m hm
          obtain ⟨p, hp, hpm⟩ := List.mem_map.mp hm
          rw [← hpm]
          simp only [beq_iff_eq]
          rw [hids' p hp]
          exact fun hc => hk0 p hp (h0.trans hc.symm)
        simp only [List.map_cons, List.filter_cons, hb, if_true, hrest, tlGet, h0,
          if_pos h0]
      · have hb : (m0.env.id == id) = false := by
          simp only [beq_eq_false_iff_ne, ne_eq]
          rw [hid0]
          exact h0
        simp only [List.map_cons, List.filter_cons, hb, Bool.false_eq_true, if_false,
          tlGet, if_neg h0]
        exact ih hids' huniq'

/-- Inserting into the order-sorted list is a permutation of consing. -/
theorem insertByOrder_perm (m : Mark) (l : List Mark) :
    List.Perm (insertByOrder m l) (m :: l) := by
  induction l with
  | nil => simp [insertByOrder]
  | cons m' t ih =>
      rw [insertByOrder]
      by_cases h : m.order ≤ m'.order
      · rw [if_pos h]
      · rw [if_neg h]
        exact (ih.cons m').trans (List.Perm.swap m m' t)

/-- Sorting the timeline values permutes them. -/
theorem sortByOrder_perm (l : List Mark) : List.Perm (sortByOrder l) l := by
  induction l with
  | nil => simp [sortByOrder]
  | cons m t ih =>
      rw [sortByOrder]
      exact (insertByOrder_perm m (sortByOrder t)).trans (ih.cons m)

/-- Every envelope a mark contributes carries that mark's envelope id. -/
theorem contrib_id (now : Int) (m : Mark) (xs : List Envelope)
    (h : contrib now m = .ok xs) : ∀ e ∈ xs, e.id = m.env.id := by
  cases hst : m.st with
  | pending =>
      rw [contrib, hst] at h
      cases h
      simp
  | inflight =>
      rw [contrib, hst] at h
      cases hav : availTs m.env with
      | error er => rw [hav] at h; exact absurd h (by simp)
      | ok ts =>
          rw [hav] at h
          cases h
          intro e he
          simp only [List.mem_singleton] at he
          rw [he, adjAvail]
          by_cases hlt : ts < now <;> simp [hlt]
  | done =>
      rw [contrib, hst] at h
      cases h
      simp

/-- Rebuilding commutes with filtering the marks (and the output) by a
fixed envelope id. -/
theorem rebuild_filter (now : Int) (id : String) :
    ∀ (l : List Mark) (q : List Envelope), rebuild now l = .ok q →
    rebuild now (l.filter (fun m => m.env.id == id)) =
      .ok (q.filter (fun e => e.id == id)) := by
  intro l
  induction l with
  | nil =>
      intro q h
      rw [rebuild] at h
      cases h
      simp [rebuild]
  | cons m rest ih =>
      intro q h
      rw [rebuild] at h
      cases hc : contrib now m with
      | error er => rw [hc] at h; exact absurd h (by simp)
      | ok xs =>
          rw [hc] at h
          cases hr : rebuild now rest with
          | error er => rw [hr] at h; exact absurd h (by simp)
          | ok q' =>
              rw [hr] at h
              cases h
              have hxs := contrib_id now m xs hc
              by_cases hm : m.env.id = id
              · have hb : (m.env.id == id) = true := beq_iff_eq.mpr hm
                have hxsf : xs.filter (fun e => e.id == id) = xs := by
                  rw [List.filter_eq_self]
                  intro e he
                  exact beq_iff_eq.mpr ((hxs e he).trans hm)
                simp [List.filter_cons, hb, rebuild, hc, ih q' hr,
                  List.filter_append, hxsf]
              · have hb : (m.env.id == id) = false := by
                  simp [hm]
                have hxsf : xs.filter (fun e => e.id == id) = [] := by
                  rw [List.filter_eq_nil_iff]
                  intro e he
                  simp only [beq_iff_eq]
                  rw [hxs e he]
                  exact hm
                simp [List.filter_cons, hb, ih q' hr, List.filter_append, hxsf]

/-- A successful replay determines the timeline as a pure fold over the
scanned marks. -/
theorem buildTimeline_ok (main dlqLines : List JLine) (n : Nat) (tl : Timeline)
    (h : buildTimeline main dlqLines = .ok (n, tl)) :
    (n, tl) = List.foldl applyMark (0, ([] : Timeline)) (marksOf main dlqLines) := by
  rw [buildTimeline] at h
  cases hm : scanLines mainLineMark (0, ([] : Timeline)) main with
  | error e => rw [hm] at h; exact absurd h (by simp)
  | ok acc =>
      rw [hm] at h
      have h1 := scanLines_ok mainLineMark main (0, ([] : Timeline)) acc hm
      have h2 := scanLines_ok dlqLineMark dlqLines acc (n, tl) h
      rw [marksOf, List.foldl_append, ← h1]
      exact h2

/-- Core replay characterization: a successful replay leaves, for each
envelope id, exactly what the last scanned mark for that id dictates —
nothing when there is no mark or the last mark is `done`, the last
recorded envelope when it is `pending`, and the availability-adjusted
envelope when it is `inflight`. -/
theorem replay_filter (main dlqLines : List JLine) (now : Int) (q : List Envelope)
    (id : String) (hq : replayQueue main dlqLines now = .ok q) :
    (lastMarkFor main dlqLines id = none → q.filter (fun e => e.id == id) = []) ∧
    (∀ env, lastMarkFor main dlqLines id = some (.done, env) →
      q.filter (fun e => e.id == id) = []) ∧
    (∀ env, lastMarkFor main dlqLines id = some (.pending, env) →
      q.filter (fun e => e.id == id) = [env]) ∧
    (∀ env, lastMarkFor main dlqLines id = some (.inflight, env) →
      ∃ ts, availTs env = .ok ts ∧
        q.filter (fun e => e.id == id) = [adjAvail now env ts]) := by
  rw [replayQueue] at hq
  cases hb : buildTimeline main dlqLines with
  | error e => rw [hb] at hq; exact absurd hq (by simp)
  | ok acc =>
      obtain ⟨n, tl⟩ := acc
      rw [hb] at hq
      have htl := buildTimeline_ok main dlqLines n tl hb
      have hinv : TLinv tl := by
        have h := TLinv_foldl (marksOf main dlqLines) (0, ([] : Timeline))
          ⟨by simp, by simp⟩
        rw [← htl] at h
        exact h
      have hlook : (tlGet tl id).map mproj = lastMarkFor main dlqLines id := by
        have h := tlGet_foldl (marksOf main dlqLines) (0, ([] : Timeline)) id
        rw [← htl] at h
        rw [lastMarkFor]
        rw [h]
        cases (List.filter (fun p => p.2.id == id) (marksOf main dlqLines)).getLast? <;>
          rfl
      have hvals := values_filter_tlGet tl hinv id
      have hrf := rebuild_filter now id (sortByOrder (tl.map (fun p => p.2))) q hq
      have hperm := (sortByOrder_perm (tl.map (fun p => p.2))).filter
        (fun m => m.env.id == id)
      have hsome : ∀ st env, lastMarkFor main dlqLines id = some (st, env) →
          ∃ m : Mark, m.st = st ∧ m.env = env ∧
            rebuild now [m] = .ok (q.filter (fun e => e.id == id)) := by
        intro st env hlm
        rw [hlm] at hlook
        cases hg : tlGet tl id with
        | none => rw [hg] at hlook; exact absurd hlook (by simp)
        | some m =>
            rw [hg] at hlook
            have hmp : mproj m = (st, env) := by simpa using hlook
            have hst : m.st = st := congrArg Prod.fst hmp
            have henv : m.env = env := congrArg Prod.snd hmp
            rw [hg] at hvals
            dsimp only [] at hvals
            rw [hvals] at hperm
            have hs := List.perm_singleton.mp hperm
            rw [hs] at hrf
            exact ⟨m, hst, henv, hrf⟩
      refine ⟨?_, ?_, ?_, ?_⟩
      · intro hlm
        rw [hlm] at hlook
        have hnone : tlGet tl id = none := by
          cases hg : tlGet tl id with
          | none => rfl
          | some m => rw [hg] at hlook; exact absurd hlook (by simp)
        rw [hnone] at hvals
        dsimp only [] at hvals
        rw [hvals] at hperm
        have hs := hperm.eq_nil
        rw [hs] at hrf
        rw [rebuild] at hrf
        exact ((Except.ok.injEq _ _).mp hrf).symm
      · intro env hlm
        obtain ⟨m, hst, henv, hrb⟩ := hsome .done env hlm
        have hc : contrib now m = .ok [] := by
          simp only [contrib, hst]
        have h1 : rebuild now [m] = .ok [] := by
          rw [rebuild, hc, rebuild]
          simp
        rw [h1] at hrb
        exact ((Except.ok.injEq _ _).mp hrb).symm
      · intro env hlm
        obtain ⟨m, hst, henv, hrb⟩ := hsome .pending env hlm
        have hc : contrib now m = .ok [m.env] := by
          simp only [contrib, hst]
        have h1 : rebuild now [m] = .ok [m.env] := by
          rw [rebuild, hc, rebuild]
          simp
        rw [h1] at hrb
        rw [← henv]
        exact ((Except.ok.injEq _ _).mp hrb).symm
      · intro env hlm
        obtain ⟨m, hst, henv, hrb⟩ := hsome .inflight env hlm
        cases hav : availTs m.env with
        | error er =>
            have hc : contrib now m = .error er := by
              simp only [contrib, hst, hav]
            have h1 : rebuild now [m] = .error er := by
              rw [rebuild, hc]
            rw [h1] at hrb
            exact absurd hrb (by simp)
        | ok ts =>
            have hc : contrib now m = .ok [adjAvail now m.env ts] := by
              simp only [contrib, hst, hav]
            have h1 : rebuild now [m] = .ok [adjAvail now m.env ts] := by
              rw [rebuild, hc, rebuild]
              simp
            rw [h1] at hrb
            refine ⟨ts, henv ▸ hav, ?_⟩
            rw [← henv]
            exact ((Except.ok.injEq _ _).mp hrb).symm

/-- Looking up the key just assigned in a Python dict. -/
theorem dictGet_dictSet_eq (d : JDict) (k : String) (v : Json) :
    dictGet (dictSet d k v) k = some v := by
  induction d with
  | nil => simp [dictSet, dictGet]
  | cons p t ih =>
      obtain ⟨k0, v0⟩ := p
      by_cases h : k0 = k <;> simp [dictSet, dictGet, h, ih]

/-- A nonempty list has a last element, and it is a member. -/
theorem exists_getLast?_mem {α : Type} (l : List α) (h : l ≠ []) :
    ∃ a, l.getLast? = some a ∧ a ∈ l := by
  obtain ⟨l', a, h'⟩ := (List.eq_nil_or_concat l).resolve_left h
  rw [List.concat_eq_append] at h'
  subst h'
  exact ⟨a, List.getLast?_concat l', by simp⟩

/-- Every mark scanned from the dead-letter file is a `done` mark. -/
theorem dlq_mark_done (l : JLine) (st : RState) (env : Envelope)
    (hm : markOf dlqLineMark l = some (st, env)) : st = .done := by
  cases l with
  | malformed => simp [markOf, dlqLineMark] at hm
  | parsed record =>
      rw [markOf] at hm
      cases hd : dictGet record "envelope" with
      | none => simp [dlqLineMark, hd] at hm
      | some ed =>
          by_cases hf : isFalsy ed
          · simp [dlqLineMark, hd, hf] at hm
          · cases hfd : Envelope.from_dict ed with
            | error e =>
                cases e <;> simp [dlqLineMark, hd, hf, hfd] at hm
            | ok env' =>
                simp [dlqLineMark, hd, hf, hfd] at hm
                exact hm.1.symm

/-- C3: replay is last-write-wins per envelope id.  For every journal
pair, every id has at most one envelope in the rebuilt queue; when the
last scanned record for the id is a `send`/`retry` (state pending) the
queued envelope is exactly the envelope of that last record (so a journal
with multiple `send` records for one id yields exactly one queued
envelope, with the last record's fields); a last `receive` re-queues the
(availability-adjusted) last envelope; a last `ack`/`dlq` excludes the id
from the queue. -/
theorem c3_replay_last_write_wins (main dlqLines : List JLine) (now : Int)
    (q : List Envelope) (id : String)
    (hq : replayQueue main dlqLines now = .ok q) :
    (q.filter (fun e => e.id == id)).length ≤ 1 ∧
    (∀ env, lastMarkFor main dlqLines id = some (.pending, env) →
      q.filter (fun e => e.id == id) = [env]) ∧
    (∀ env, lastMarkFor main dlqLines id = some (.inflight, env) →
      ∃ ts, availTs env = .ok ts ∧
        q.filter (fun e => e.id == id) = [adjAvail now env ts]) ∧
    (∀ env, lastMarkFor main dlqLines id = some (.done, env) →
      q.filter (fun e => e.id == id) = []) ∧
    (lastMarkFor main dlqLines id = none → q.filter (fun e => e.id == id) = []) := by
  obtain ⟨h0, h1, h2, h3⟩ := replay_filter main dlqLines now q id hq
  refine ⟨?_, h2, h3, h1, h0⟩
  cases hlm : lastMarkFor main dlqLines id with
  | none => rw [h0 hlm]; simp
  | some p =>
      obtain ⟨st, env⟩ := p
      cases st with
      | pending => rw [h2 env hlm]; simp
      | inflight =>
          obtain ⟨ts, _, hf⟩ := h3 env hlm
          rw [hf]
          simp
      | done => rw [h1 env hlm]; simp

/-- An envelope with id `"m1"` and payload `{"v": 1}`. -/
def envP1 : Envelope := { sampleEnv with payload := [("v", .int 1)] }

/-- Same id `"m1"`, payload `{"v": 2}`. -/
def envP2 : Envelope := { sampleEnv with payload := [("v", .int 2)] }

/-- Witness for C3: a journal with two `send` records for id `"m1"`
replays to exactly one queued envelope, the one of the second record. -/
theorem c3_witness :
    List.filter (fun e => e.id == "m1") [envP2] = [envP2] :=
  (c3_replay_last_write_wins
    [.parsed (sendRec envP1), .parsed (sendRec envP2)] [] 0 [envP2] "m1"
    rfl).2.1 envP2 rfl

/-- C5: an envelope whose last journal record is a `receive` (no later
`ack`/`retry`/`dlq` for its id) is rebuilt at replay and re-queued as
pending: the rebuilt queue holds it with `available_at` reset to `now` if
it was in the past (so its new availability is `max ts now`), and
`_pop_available` delivers it again once that time is reached — at-least-
once delivery, no silent loss. -/
theorem c5_inflight_requeued (main dlqLines : List JLine) (now : Int)
    (q : List Envelope) (id : String) (env : Envelope)
    (hq : replayQueue main dlqLines now = .ok q)
    (hlm : lastMarkFor main dlqLines id = some (.inflight, env)) :
    ∃ ts, availTs env = .ok ts ∧
      q.filter (fun e => e.id == id) = [adjAvail now env ts] ∧
      availTs (adjAvail now env ts) = .ok (max ts now) ∧
      pop_available [adjAvail now env ts] (max ts now) =
        .ok (some (adjAvail now env ts), []) := by
  obtain ⟨-, -, -, h3⟩ := replay_filter main dlqLines now q id hq
  obtain ⟨ts, hav, hf⟩ := h3 env hlm
  have havAdj : availTs (adjAvail now env ts) = .ok (max ts now) := by
    rw [adjAvail]
    by_cases hlt : ts < now
    · rw [if_pos hlt]
      rw [max_eq_right (le_of_lt hlt)]
      rw [availTs]
      simp [dictGet_dictSet_eq]
      rfl
    · rw [if_neg hlt]
      rw [max_eq_left (not_lt.mp hlt)]
      exact hav
  refine ⟨ts, hav, hf, havAdj, ?_⟩
  rw [pop_available]
  show popAvailLoop 1 [adjAvail now env ts] (max ts now) = _
  rw [popAvailLoop, havAdj]
  simp

/-- Witness for C5: a journal holding one `receive` record for `envP1`
replayed at time 5 re-queues it with `available_at` reset to 5. -/
theorem c5_witness :
    ∃ ts, availTs envP1 = .ok ts ∧
      List.filter (fun e => e.id == "m1") [adjAvail 5 envP1 0] = [adjAvail 5 envP1 ts] ∧
      availTs (adjAvail 5 envP1 ts) = .ok (max ts 5) ∧
      pop_available [adjAvail 5 envP1 ts] (max ts 5) =
        .ok (some (adjAvail 5 envP1 ts), []) :=
  c5_inflight_requeued [.parsed (receiveRec envP1)] [] 5 [adjAvail 5 envP1 0]
    "m1" envP1 rfl rfl

/-- C10: the dead-letter file is scanned after the main journal and every
id found there ends `done`: an id with any (valid) record in the
dead-letter file is excluded from the rebuilt queue, whatever the main
journal's last record for it was. -/
theorem c10_dlq_file_excluded (main dlqLines : List JLine) (now : Int)
    (q : List Envelope) (id : String) (l : JLine) (st : RState) (env : Envelope)
    (hq : replayQueue main dlqLines now = .ok q)
    (hl : l ∈ dlqLines)
    (hm : markOf dlqLineMark l = some (st, env))
    (hid : env.id = id) :
    q.filter (fun e => e.id == id) = [] := by
  obtain ⟨h0, h1, h2, h3⟩ := replay_filter main dlqLines now q id hq
  have hmem : (st, env) ∈ dlqLines.filterMap (markOf dlqLineMark) :=
    List.mem_filterMap.mpr ⟨l, hl, hm⟩
  have hmemf : (st, env) ∈
      (dlqLines.filterMap (markOf dlqLineMark)).filter (fun p => p.2.id == id) :=
    List.mem_filter.mpr ⟨hmem, beq_iff_eq.mpr hid⟩
  have hne : (dlqLines.filterMap (markOf dlqLineMark)).filter
      (fun p => p.2.id == id) ≠ [] :=
    List.ne_nil_of_mem hmemf
  obtain ⟨p, hpl, hpm⟩ := exists_getLast?_mem _ hne
  obtain ⟨pst, penv⟩ := p
  have hlast : lastMarkFor main dlqLines id = some (pst, penv) := by
    rw [lastMarkFor, marksOf, List.filter_append]
    rw [List.getLast?_append_of_ne_nil _ hne]
    exact hpl
  have hpdlq : (pst, penv) ∈ dlqLines.filterMap (markOf dlqLineMark) :=
    (List.mem_filter.mp hpm).1
  obtain ⟨l', hl', hm'⟩ := List.mem_filterMap.mp hpdlq
  have hdone : pst = .done := dlq_mark_done l' pst penv (by rw [hm'])
  apply h1 penv
  rw [hlast, hdone]

/-- Witness for C10: `envP1` is journaled as `send` in the main journal
but also appears in the dead-letter file, so replay excludes it. -/
theorem c10_witness :
    List.filter (fun e => e.id == "m1") ([] : List Envelope) = [] :=
  c10_dlq_file_excluded [.parsed (sendRec envP1)]
    [.parsed (dlqRec envP1 "boom")] 0 [] "m1"
    (.parsed (dlqRec envP1 "boom")) .done envP1 rfl (by simp) rfl rfl

/-- Replaying a `receive` record written by the broker marks the recorded
envelope `inflight`. -/
theorem mark_receiveRec (envelope : Envelope) :
    markOf mainLineMark (.parsed (receiveRec envelope)) =
      some (.inflight, envelope) := by
  cases envelope with
  | mk i t s ty tp ts p m a => cases ty <;> rfl

/-- C9: a non-task envelope delivered by `receive_data` is journaled as
`receive` but never inserted into the in-flight set, so acknowledging its
id is a no-op that writes no record; consequently, restarting after such a
consumption (with no later record for the id) replays the envelope back
into the queue — every consumed non-task envelope is re-delivered after
every restart. -/
theorem c9_nontask_redelivered (s : ComAgent) (envelope : Envelope)
    (q' : List Envelope) (now : Int) (success : Bool) (error : String)
    (t now' : Int) (q2 : List Envelope)
    (hpop : pop_available s.queue now = .ok (some envelope, q'))
    (hty : envelope.type ≠ .task)
    (hinfl : popKey s.inflight envelope.id = none) :
    receive_data s now = .ok (some (envelope.to, envelope.to_dict),
      { s with queue := q', journal := s.journal ++ [receiveRec envelope] }) ∧
    ack { s with queue := q', journal := s.journal ++ [receiveRec envelope] }
        envelope.id success error t =
      { s with queue := q', journal := s.journal ++ [receiveRec envelope] } ∧
    (replayQueue ((s.journal ++ [receiveRec envelope]).map JLine.parsed) [] now'
        = .ok q2 →
      q2.filter (fun e => e.id == envelope.id) ≠ []) := by
  refine ⟨?_, ?_, ?_⟩
  · rw [receive_data, hpop]
    simp [hty]
  · rw [ack]
    simp only []
    rw [hinfl]
  · intro hq
    have hlast : lastMarkFor ((s.journal ++ [receiveRec envelope]).map JLine.parsed)
        [] envelope.id = some (.inflight, envelope) := by
      rw [lastMarkFor, marksOf, List.map_append, List.filterMap_append]
      simp only [List.filterMap_nil, List.append_nil, List.map_cons, List.map_nil,
        List.filterMap_cons, mark_receiveRec envelope, List.filterMap_nil]
      rw [List.filter_append]
      have hsel : List.filter (fun p => p.2.id == envelope.id)
          [((RState.inflight, envelope) : RState × Envelope)] =
          [(RState.inflight, envelope)] := by
        simp
      rw [hsel, List.getLast?_concat]
    obtain ⟨-, -, -, h3⟩ := replay_filter
      ((s.journal ++ [receiveRec envelope]).map JLine.parsed) [] now' q2
      envelope.id hq
    obtain ⟨ts, -, hf⟩ := h3 envelope hlast
    rw [hf]
    simp

/-- The broker `st0` with the event envelope `envA` queued. -/
def st9 : ComAgent := { st0 with queue := [envA] }

/-- Witness for C9, conjunct on `receive_data`: the broker `st9` delivers
the event envelope `envA` without touching the in-flight set. -/
theorem c9_witness :
    receive_data st9 0 = .ok (some (envA.to, envA.to_dict),
      { st9 with queue := [], journal := st9.journal ++ [receiveRec envA] }) :=
  (c9_nontask_redelivered st9 envA [] 0 true "" 0 0 [] rfl (by decide) rfl).1

end LamCA
